import Mathlib

/-!
Verification of the Student Grade Analyzer (`lecture_3/main.py`).

The program keeps a module-level list `students` of records
`{"name": str, "grades": list[int]}` and mutates it through
`add_new_student`, `add_grades`, queried through `is_student_exists`,
`show_report` and `find_top_performer`; grades are collected from the
user by `input_grades`.  We embed the mutable list as an explicit
`List Student` threaded through the operations, Python strings as
`List Char`, Python ints as `Int`, and float averages as exact `ℚ`.
`str.capitalize()` (first character uppercased, rest lowercased, as it
acts on ASCII names) is `pyCapitalize`; Lean's `Char.toUpper`/`toLower`
implement exactly the ASCII letter mapping Python applies.
-/

/-- Python `s.capitalize()`: first character uppercased, the rest lowercased. -/
def pyCapitalize (s : List Char) : List Char :=
  match s with
  | [] => []
  | c :: cs => Char.toUpper c :: cs.map Char.toLower

/-- One record of the `students` list: `{"name": ..., "grades": [...]}`. -/
structure Student where
  name : List Char
  grades : List Int
deriving DecidableEq

/-- `is_student_exists(name)`: `name.capitalize() in [i["name"] for i in students]`. -/
def is_student_exists (students : List Student) (name : List Char) : Bool :=
  decide (pyCapitalize name ∈ students.map Student.name)

/-- `add_new_student(name)`: on a duplicate prints "Student already exists" and
returns; otherwise appends `{"name": name, "grades": []}`.  The `Bool` records
whether the duplicate message was printed. -/
def add_new_student (students : List Student) (name : List Char) :
    List Student × Bool :=
  if is_student_exists students name then (students, true)
  else (students ++ [⟨name, []⟩], false)

/-- `add_grades(name, grades)`: scans the list, overwrites the grades of the
first student whose stored name equals `name` exactly, and raises
`ValueError("Student does not exist")` (modelled as `none`) when the scan
finds no match. -/
def add_grades (students : List Student) (name : List Char) (grades : List Int) :
    Option (List Student) :=
  match students with
  | [] => none
  | s :: rest =>
    if name = s.name then some (⟨s.name, grades⟩ :: rest)
    else (add_grades rest name grades).map (fun l => s :: l)

/-- `sum(grades) / len(grades)`, as an exact rational. -/
def average (gs : List Int) : ℚ :=
  ((gs.sum : ℚ)) / ((gs.length : ℚ))

/-- The loop body of `show_report`: the accumulator holds the per-student
lines printed so far (`none` standing for the "N/A" line of the
`ZeroDivisionError` branch), `all_grades`, and `all_average_grades`. -/
def reportStep (acc : List (List Char × Option ℚ) × List Int × List ℚ)
    (s : Student) : List (List Char × Option ℚ) × List Int × List ℚ :=
  if s.grades = [] then
    (acc.1 ++ [(s.name, none)], acc.2.1 ++ s.grades, acc.2.2)
  else
    (acc.1 ++ [(s.name, some (average s.grades))], acc.2.1 ++ s.grades,
      acc.2.2 ++ [average s.grades])

/-- The `for student in students` loop of `show_report`, started from the
empty accumulators `all_grades, all_average_grades = [], []`. -/
def reportScan (students : List Student) :
    List (List Char × Option ℚ) × List Int × List ℚ :=
  students.foldl reportStep ([], [], [])

/-- Python `min` over a nonempty list (`none` on the empty list, where the
code does not call it). -/
def listMin : List Int → Option Int
  | [] => none
  | x :: xs => some (xs.foldl min x)

/-- Python `max` over a nonempty list. -/
def listMax : List Int → Option Int
  | [] => none
  | x :: xs => some (xs.foldl max x)

/-- The output of `show_report`: the per-student average lines, the global
`min`/`max` over `all_grades` (printed only `if all_grades:`), and the
overall mean of `all_average_grades` (printed only `if all_average_grades:`). -/
structure Report where
  perStudent : List (List Char × Option ℚ)
  minMax : Option (Int × Int)
  overall : Option ℚ
deriving DecidableEq

/-- `show_report()`, with printing replaced by returning the printed values. -/
def show_report (students : List Student) : Report :=
  let scan := reportScan students
  ⟨scan.1,
    match listMin scan.2.1, listMax scan.2.1 with
    | some mn, some mx => some (mn, mx)
    | _, _ => none,
    if scan.2.2 = [] then none
    else some (scan.2.2.sum / ((scan.2.2.length : ℚ)))⟩

/-- The `valid_students` list built by `find_top_performer`: every student
with a nonempty grade list contributes `(name, average)` in order. -/
def valid_students (students : List Student) : List (List Char × ℚ) :=
  (students.filter (fun s => !(s.grades.isEmpty))).map
    (fun s => (s.name, average s.grades))

/-- One comparison step of Python `max(valid_students, key=lambda x: x[1])`:
the running maximum is replaced only when strictly beaten, so ties keep the
earlier element. -/
def pyMaxStep (cur y : List Char × ℚ) : List Char × ℚ :=
  if cur.2 < y.2 then y else cur

/-- Python `max(l, key=lambda x: x[1])` on a nonempty list. -/
def pyMaxByVal (l : List (List Char × ℚ)) : Option (List Char × ℚ) :=
  match l with
  | [] => none
  | x :: xs => some (xs.foldl pyMaxStep x)

/-- `find_top_performer()`: `none` models the "No top student found" message. -/
def find_top_performer (students : List Student) : Option (List Char × ℚ) :=
  pyMaxByVal (valid_students students)

/-- One user entry consumed by `input_grades`: a token whose lowercase form is
"done", a token parsing as the integer `n`, or anything else (rejected with
"Invalid grade"). -/
inductive GradeInput where
  | done
  | num (n : Int)
  | invalid
deriving DecidableEq

/-- `input_grades()` run against a finite stream of entries: accepts integer
entries in `[0,100]`, rejects the rest with a message, and returns the
accepted grades at the first "done".  A stream with no "done" leaves the
`while True` loop waiting for more input, modelled as `none`. -/
def input_grades : List GradeInput → Option (List Int)
  | [] => none
  | GradeInput.done :: _ => some []
  | GradeInput.num n :: ts =>
    if 0 ≤ n ∧ n ≤ 100 then (input_grades ts).map (fun gs => n :: gs)
    else input_grades ts
  | GradeInput.invalid :: ts => input_grades ts

/-- All raw grade values across all students, in scan order (the final value
of `all_grades`). -/
def allGrades (students : List Student) : List Int :=
  (students.map Student.grades).flatten

/-- The final value of `all_average_grades`: the averages of exactly the
students having at least one grade. -/
def all_average_grades (students : List Student) : List ℚ :=
  (students.filter (fun s => !(s.grades.isEmpty))).map (fun s => average s.grades)

/-- Two names differ only in letter case (pointwise equal lowercased). -/
def caseVariantB : List Char → List Char → Bool
  | [], [] => true
  | a :: as, b :: bs => (a.toLower == b.toLower) && caseVariantB as bs
  | _, _ => false

/-- Concrete names used in witnesses and counterexamples. -/
def nAlice : List Char := ['A', 'l', 'i', 'c', 'e']

def nalice : List Char := ['a', 'l', 'i', 'c', 'e']

def nALICE : List Char := ['A', 'L', 'I', 'C', 'E']

def naLICE : List Char := ['a', 'L', 'I', 'C', 'E']

def nBob : List Char := ['B', 'o', 'b']

def nA : List Char := ['A']

def nB : List Char := ['B']

def nC : List Char := ['C']

/-! ### Character-level facts about `capitalize` -/

theorem char_toNat_ofNat_valid (n : Nat) (h : n < 55296) :
    (Char.ofNat n).toNat = n := by
  rw [Char.ofNat, dif_pos (Or.inl h)]
  rfl

theorem toUpper_toLower (c : Char) : (c.toLower).toUpper = c.toUpper := by
  simp only [Char.toLower, Char.toUpper]
  split
  · rename_i h
    rw [char_toNat_ofNat_valid (c.toNat + 32) (by omega)]
    rw [if_pos (by omega), if_neg (by omega)]
    have h32 : c.toNat + 32 - 32 = c.toNat := by omega
    rw [h32, Char.ofNat_toNat]
  · rfl

theorem caseVariantB_map_toLower :
    ∀ {a b : List Char}, caseVariantB a b = true →
      a.map Char.toLower = b.map Char.toLower := by
  intro a
  induction a with
  | nil =>
    intro b h
    cases b with
    | nil => rfl
    | cons y ys => simp [caseVariantB] at h
  | cons x xs ih =>
    intro b h
    cases b with
    | nil => simp [caseVariantB] at h
    | cons y ys =>
      rw [caseVariantB, Bool.and_eq_true, beq_iff_eq] at h
      simp [h.1, ih h.2]

theorem caseVariantB_pyCapitalize {a b : List Char}
    (h : caseVariantB a b = true) : pyCapitalize a = pyCapitalize b := by
  cases a with
  | nil =>
    cases b with
    | nil => rfl
    | cons y ys => simp [caseVariantB] at h
  | cons x xs =>
    cases b with
    | nil => simp [caseVariantB] at h
    | cons y ys =>
      rw [caseVariantB, Bool.and_eq_true, beq_iff_eq] at h
      have hup : x.toUpper = y.toUpper := by
        rw [← toUpper_toLower x, h.1, toUpper_toLower y]
      have hmap := caseVariantB_map_toLower h.2
      simp only [pyCapitalize, hup, hmap]

/-! ### Basic facts about the roster operations -/

theorem is_student_exists_iff (students : List Student) (n : List Char) :
    is_student_exists students n = true ↔
      pyCapitalize n ∈ students.map Student.name := by
  simp [is_student_exists]

theorem add_grades_none_iff (students : List Student) (n : List Char)
    (gs : List Int) :
    add_grades students n gs = none ↔ n ∉ students.map Student.name := by
  induction students with
  | nil => simp [add_grades]
  | cons s rest ih =>
    by_cases hn : n = s.name
    · simp [add_grades, hn]
    · simp [add_grades, hn, Option.map_eq_none', ih]

theorem add_grades_first (l1 : List Student) (s0 : Student) (l2 : List Student)
    (gs : List Int) (h : s0.name ∉ l1.map Student.name) :
    add_grades (l1 ++ s0 :: l2) s0.name gs =
      some (l1 ++ ⟨s0.name, gs⟩ :: l2) := by
  induction l1 with
  | nil => simp [add_grades]
  | cons s rest ih =>
    rw [List.map_cons, List.mem_cons, not_or] at h
    rw [List.cons_append, add_grades, if_neg h.1, ih h.2]
    rfl

theorem mem_first_split {l : List Student} {n : List Char}
    (h : n ∈ l.map Student.name) :
    ∃ l1 s0 l2, l = l1 ++ s0 :: l2 ∧ s0.name = n ∧
      n ∉ l1.map Student.name := by
  induction l with
  | nil => simp at h
  | cons s rest ih =>
    by_cases hs : s.name = n
    · exact ⟨[], s, rest, by simp, hs, by simp⟩
    · have h' : n ∈ rest.map Student.name := by
        rw [List.map_cons, List.mem_cons] at h
        rcases h with h | h
        · exact absurd h.symm hs
        · exact h
      obtain ⟨l1, s0, l2, heq, hname, hnot⟩ := ih h'
      refine ⟨s :: l1, s0, l2, by rw [heq, List.cons_append], hname, ?_⟩
      rw [List.map_cons, List.mem_cons, not_or]
      exact ⟨fun e => hs e.symm, hnot⟩

/-! ### Claims C1, C2, C4, C5, C10 -/

/-- Claim C1, as stated, is false on the code: `is_student_exists` compares
the *capitalized* argument against stored names, while `add_grades` compares
the argument *exactly*.  With the roster holding "Alice", the name "alice"
exists (`exists` returns true) yet `add_grades` raises
`ValueError("Student does not exist")`. -/
theorem exists_but_add_grades_fails :
    is_student_exists [⟨nAlice, []⟩] nalice = true ∧
    add_grades [⟨nAlice, []⟩] nalice [90] = none := by decide

/-- Claim C1 (amended): for every name `n` already in capitalized form — as
every name produced by the program's input layer is — if `exists n` returns
true then `add_grades n gs` succeeds (no StudentNotFound) and wholesale
replaces that student's grade sequence with `gs`, touching no other record. -/
theorem capitalized_exists_add_grades_replaces
    (students : List Student) (n : List Char) (gs : List Int)
    (hcap : pyCapitalize n = n) (hex : is_student_exists students n = true) :
    ∃ l1 g0 l2, students = l1 ++ ⟨n, g0⟩ :: l2 ∧
      n ∉ l1.map Student.name ∧
      add_grades students n gs = some (l1 ++ ⟨n, gs⟩ :: l2) := by
  have hmem : n ∈ students.map Student.name := by
    rw [← hcap]
    exact (is_student_exists_iff students n).1 hex
  obtain ⟨l1, s0, l2, heq, hname, hnot⟩ := mem_first_split hmem
  obtain ⟨nm, g0⟩ := s0
  cases hname
  refine ⟨l1, g0, l2, heq, hnot, ?_⟩
  rw [heq]
  exact add_grades_first l1 ⟨nm, g0⟩ l2 gs hnot

/-- Claim C1 witness: concrete instance of the amended claim. -/
theorem capitalized_exists_add_grades_replaces_witness :
    ∃ l1 g0 l2, ([⟨nBob, [1]⟩] : List Student) = l1 ++ ⟨nBob, g0⟩ :: l2 ∧
      nBob ∉ l1.map Student.name ∧
      add_grades [⟨nBob, [1]⟩] nBob [5] = some (l1 ++ ⟨nBob, [5]⟩ :: l2) :=
  capitalized_exists_add_grades_replaces [⟨nBob, [1]⟩] nBob [5]
    (by decide) (by decide)

/-- Claim C2, as stated, is false on the code: `add_new_student` only tests
the *capitalized* form of the new name against stored names, so a roster the
operation itself built to hold the name "ALICE" accepts the very same name
again (a case variant of itself), appending a second record and reporting no
duplicate. -/
theorem readd_same_name_appends_again :
    (add_new_student [] nALICE).1 = [⟨nALICE, []⟩] ∧
    nALICE ∈ ([⟨nALICE, []⟩] : List Student).map Student.name ∧
    caseVariantB nALICE nALICE = true ∧
    (add_new_student [⟨nALICE, []⟩] nALICE).1 ≠ [⟨nALICE, []⟩] ∧
    (add_new_student [⟨nALICE, []⟩] nALICE).2 = false := by decide

/-- Claim C2 (amended): on a roster whose stored names are all in capitalized
form — as every name entering through the program's input layer is — re-adding
any case variant of a present name leaves the roster completely unchanged and
reports the duplicate; uniqueness is enforced case-insensitively at creation
time. -/
theorem readd_case_variant_reports_duplicate
    (students : List Student) (n1 v : List Char)
    (hinv : ∀ s ∈ students, pyCapitalize s.name = s.name)
    (hmem : n1 ∈ students.map Student.name)
    (hvar : caseVariantB v n1 = true) :
    add_new_student students v = (students, true) := by
  have hn1 : pyCapitalize n1 = n1 := by
    obtain ⟨s, hs, hsn⟩ := List.mem_map.1 hmem
    rw [← hsn]
    exact hinv s hs
  have hcapv : pyCapitalize v = n1 := by
    rw [caseVariantB_pyCapitalize hvar, hn1]
  have hex : is_student_exists students v = true := by
    simp [is_student_exists, hcapv, hmem]
  simp [add_new_student, hex]

/-- Claim C2 witness: re-adding "aLICE" to a roster holding "Alice" changes
nothing and reports the duplicate. -/
theorem readd_case_variant_reports_duplicate_witness :
    add_new_student [⟨nAlice, [90]⟩] naLICE = ([⟨nAlice, [90]⟩], true) :=
  readd_case_variant_reports_duplicate [⟨nAlice, [90]⟩] nAlice naLICE
    (by decide) (by decide) (by decide)

/-- Claim C4: `add_grades` on a name matching no stored record raises the
"Student does not exist" error (`none`, the raise happening before any
assignment, so the roster is not mutated). -/
theorem add_grades_absent_name_errors (students : List Student)
    (n : List Char) (gs : List Int) (h : n ∉ students.map Student.name) :
    add_grades students n gs = none :=
  (add_grades_none_iff students n gs).2 h

/-- Claim C4 witness. -/
theorem add_grades_absent_name_errors_witness :
    add_grades [⟨nAlice, [50]⟩] nBob [1] = none :=
  add_grades_absent_name_errors [⟨nAlice, [50]⟩] nBob [1] (by decide)

/-- Claim C5: `add_grades` overwrites rather than appends — whatever grade
list `g0` the addressed student held before, afterwards the student's stored
sequence is exactly `gs`, with no element of `g0` retained, and every other
record is untouched. -/
theorem add_grades_overwrites (l1 l2 : List Student) (n : List Char)
    (g0 gs : List Int) (h : n ∉ l1.map Student.name) :
    add_grades (l1 ++ ⟨n, g0⟩ :: l2) n gs = some (l1 ++ ⟨n, gs⟩ :: l2) :=
  add_grades_first l1 ⟨n, g0⟩ l2 gs h

/-- Claim C5 witness: Alice's grades `[70, 80]` are wholly replaced by `[90]`
while Bob's record is untouched. -/
theorem add_grades_overwrites_witness :
    add_grades [⟨nBob, [7]⟩, ⟨nAlice, [70, 80]⟩] nAlice [90] =
      some [⟨nBob, [7]⟩, ⟨nAlice, [90]⟩] :=
  add_grades_overwrites [⟨nBob, [7]⟩] [] nAlice [70, 80] [90] (by decide)

/-- Claim C10: adding a name the existence check does not find appends exactly
one record, with that name and an empty grade list, at the end of the roster;
every previously existing record, its order, its name and its grades are
unchanged, and no duplicate message is printed. -/
theorem add_new_student_appends_fresh (students : List Student)
    (name : List Char) (h : is_student_exists students name = false) :
    add_new_student students name = (students ++ [⟨name, []⟩], false) := by
  simp [add_new_student, h]

/-- Claim C10 witness. -/
theorem add_new_student_appends_fresh_witness :
    add_new_student [⟨nAlice, [7]⟩] nBob =
      ([⟨nAlice, [7]⟩, ⟨nBob, []⟩], false) :=
  add_new_student_appends_fresh [⟨nAlice, [7]⟩] nBob (by decide)

/-- Claim C3, as stated, is false on the code: the grade-setting operation
itself performs no range check — handed the out-of-range grade `150` for an
existing student it stores it verbatim, with no error and no clamping. -/
theorem add_grades_stores_out_of_range :
    add_grades [⟨nAlice, []⟩] nAlice [150] = some [⟨nAlice, [150]⟩] := by
  decide

/-- Claim C3 (amended): range validation lives at the input boundary, not in
the grade-setting operation.  `input_grades` — the only grade source in the
program — accepts exactly the integer entries in `[0, 100]`, so every grade
list it returns is in range; and storing an in-range list with `add_grades`
keeps every stored grade of every student in range.  `add_grades` itself
rejects nothing: handed an out-of-range value it stores it unvalidated. -/
theorem grades_validated_at_input_boundary :
    (∀ toks gs, input_grades toks = some gs → ∀ g ∈ gs, 0 ≤ g ∧ g ≤ 100) ∧
    (∀ (students students' : List Student) (n : List Char) (gs : List Int),
      (∀ s ∈ students, ∀ g ∈ s.grades, 0 ≤ g ∧ g ≤ 100) →
      (∀ g ∈ gs, 0 ≤ g ∧ g ≤ 100) →
      add_grades students n gs = some students' →
      ∀ s ∈ students', ∀ g ∈ s.grades, 0 ≤ g ∧ g ≤ 100) := by
  constructor
  · intro toks
    induction toks with
    | nil => intro gs h; simp [input_grades] at h
    | cons t ts ih =>
      intro gs h
      cases t with
      | done =>
        rw [input_grades] at h
        injection h with h
        subst h
        simp
      | num n =>
        by_cases hn : 0 ≤ n ∧ n ≤ 100
        · rw [input_grades, if_pos hn] at h
          obtain ⟨gs', hgs', rfl⟩ := Option.map_eq_some'.1 h
          intro g hg
          rcases List.mem_cons.1 hg with rfl | hg'
          · exact hn
          · exact ih gs' hgs' g hg'
        · rw [input_grades, if_neg hn] at h
          exact ih gs h
      | invalid =>
        rw [input_grades] at h
        exact ih gs h
  · intro students
    induction students with
    | nil => intro students' n gs _ _ h; simp [add_grades] at h
    | cons s rest ih =>
      intro students' n gs hstud hgs hadd
      rw [add_grades] at hadd
      by_cases hn : n = s.name
      · rw [if_pos hn] at hadd
        injection hadd with hadd
        subst hadd
        intro s' hs'
        rcases List.mem_cons.1 hs' with rfl | hs''
        · exact hgs
        · exact hstud s' (List.mem_cons_of_mem s hs'')
      · rw [if_neg hn] at hadd
        obtain ⟨l', hl', rfl⟩ := Option.map_eq_some'.1 hadd
        intro s' hs'
        rcases List.mem_cons.1 hs' with rfl | hs''
        · exact hstud _ (List.mem_cons_self _ _)
        · exact ih l' n gs (fun a ha => hstud a (List.mem_cons_of_mem s ha))
            hgs hl' s' hs''

/-- Claim C3 witness: the stream `150, 50, junk, done` yields exactly `[50]`
(the out-of-range `150` rejected), whose members are all in range. -/
theorem grades_validated_at_input_boundary_witness :
    ∀ g ∈ ([50] : List Int), 0 ≤ g ∧ g ≤ 100 :=
  grades_validated_at_input_boundary.1
    [GradeInput.num 150, GradeInput.num 50, GradeInput.invalid,
      GradeInput.done] [50] (by decide)

/-! ### The report computation -/

theorem reportScan_append (students : List Student)
    (acc : List (List Char × Option ℚ) × List Int × List ℚ) :
    students.foldl reportStep acc =
      (acc.1 ++ students.map (fun s => (s.name,
         if s.grades = [] then none else some (average s.grades))),
       acc.2.1 ++ allGrades students,
       acc.2.2 ++ all_average_grades students) := by
  induction students generalizing acc with
  | nil => simp [allGrades, all_average_grades]
  | cons s rest ih =>
    rw [List.foldl_cons, ih]
    by_cases hg : s.grades = []
    · simp [reportStep, hg, allGrades, all_average_grades]
    · simp [reportStep, hg, allGrades, all_average_grades,
        List.isEmpty_iff]

theorem reportScan_eq (students : List Student) :
    reportScan students =
      (students.map (fun s => (s.name,
         if s.grades = [] then none else some (average s.grades))),
       allGrades students, all_average_grades students) := by
  have h := reportScan_append students ([], [], [])
  simpa [reportScan] using h

theorem show_report_eq (students : List Student) :
    show_report students =
      ⟨students.map (fun s => (s.name,
         if s.grades = [] then none else some (average s.grades))),
       match listMin (allGrades students), listMax (allGrades students) with
       | some mn, some mx => some (mn, mx)
       | _, _ => none,
       if all_average_grades students = [] then none
       else some ((all_average_grades students).sum /
         ((all_average_grades students).length : ℚ))⟩ := by
  unfold show_report
  rw [reportScan_eq]

/-- Claim C6: the reported per-student figure is the arithmetic mean of that
student's grades whenever there is at least one ([70, 80, 90] reports 80),
and a student with an empty grade sequence is reported as "N/A" (`none`)
rather than raising the division error. -/
theorem report_per_student_average :
    (∀ students : List Student,
      (show_report students).perStudent =
        students.map (fun s => (s.name,
          if s.grades = [] then none else some (average s.grades)))) ∧
    average [70, 80, 90] = 80 ∧
    (show_report [⟨nC, []⟩]).perStudent = [(nC, none)] := by
  refine ⟨?_, ?_, ?_⟩
  · intro students
    rw [show_report_eq]
  · norm_num [average]
  · rw [show_report_eq]
    simp [all_average_grades]

/-- A roster exercising the reporting paths: one low single grade, one
two-grade student, one student with no grades. -/
def exABC : List Student := [⟨nA, [0]⟩, ⟨nB, [50, 100]⟩, ⟨nC, []⟩]

/-- Claim C7: the overall figure is the mean of the per-student averages of
exactly the students having at least one grade (`all_average_grades` filters
the gradeless out), not a flat mean over every grade: on `exABC` the
average-of-averages is 37.5 while the flat mean of all grades is 50 — and the
gradeless student still appears in the per-student listing as "N/A". -/
theorem report_overall_average_of_averages :
    (∀ students : List Student,
      (show_report students).overall =
        if all_average_grades students = [] then none
        else some ((all_average_grades students).sum /
          ((all_average_grades students).length : ℚ))) ∧
    (show_report exABC).overall = some (75 / 2) ∧
    average (allGrades exABC) = 50 ∧
    (75 / 2 : ℚ) ≠ 50 ∧
    (show_report exABC).perStudent = [(nA, some 0), (nB, some 75), (nC, none)] := by
  refine ⟨?_, ?_, ?_, ?_, ?_⟩
  · intro students
    rw [show_report_eq]
  · rw [show_report_eq]
    simp +decide [all_average_grades, exABC, nA, nB, nC, average]
    norm_num
  · norm_num [average, allGrades, exABC, nA, nB, nC]
  · norm_num
  · rw [show_report_eq]
    simp +decide [exABC, nA, nB, nC, average]
    norm_num

/-! ### `min`/`max` over the raw grade values -/

theorem foldl_min_spec (x : Int) (xs : List Int) :
    (xs.foldl min x = x ∨ xs.foldl min x ∈ xs) ∧
    xs.foldl min x ≤ x ∧ ∀ y ∈ xs, xs.foldl min x ≤ y := by
  induction xs generalizing x with
  | nil => simp
  | cons z rest ih =>
    rw [List.foldl_cons]
    obtain ⟨hmem, hlex, hle⟩ := ih (min x z)
    refine ⟨?_, le_trans hlex (min_le_left x z), ?_⟩
    · rcases hmem with h | h
      · rcases min_choice x z with hc | hc
        · left
          rw [h, hc]
        · right
          rw [h, hc]
          exact List.mem_cons_self z rest
      · exact Or.inr (List.mem_cons_of_mem z h)
    · intro y hy
      rcases List.mem_cons.1 hy with rfl | hy'
      · exact le_trans hlex (min_le_right x y)
      · exact hle y hy'

theorem foldl_max_spec (x : Int) (xs : List Int) :
    (xs.foldl max x = x ∨ xs.foldl max x ∈ xs) ∧
    x ≤ xs.foldl max x ∧ ∀ y ∈ xs, y ≤ xs.foldl max x := by
  induction xs generalizing x with
  | nil => simp
  | cons z rest ih =>
    rw [List.foldl_cons]
    obtain ⟨hmem, hlex, hle⟩ := ih (max x z)
    refine ⟨?_, le_trans (le_max_left x z) hlex, ?_⟩
    · rcases hmem with h | h
      · rcases max_choice x z with hc | hc
        · left
          rw [h, hc]
        · right
          rw [h, hc]
          exact List.mem_cons_self z rest
      · exact Or.inr (List.mem_cons_of_mem z h)
    · intro y hy
      rcases List.mem_cons.1 hy with rfl | hy'
      · exact le_trans (le_max_right x y) hlex
      · exact hle y hy'

/-- Claim C8: the global figures are the `min` and `max` over the multiset of
all individual raw grade values across all students — each is itself one of
the raw grades and bounds every raw grade — and they are computed only when
at least one grade exists in the roster (`minMax = none` exactly when there
are no grades at all). -/
theorem report_min_max_over_raw_grades (students : List Student) :
    ((show_report students).minMax = none ↔ allGrades students = []) ∧
    ∀ mn mx, (show_report students).minMax = some (mn, mx) →
      mn ∈ allGrades students ∧ mx ∈ allGrades students ∧
      ∀ g ∈ allGrades students, mn ≤ g ∧ g ≤ mx := by
  rw [show_report_eq]
  cases hl : allGrades students with
  | nil => simp [listMin, listMax]
  | cons x xs =>
    simp only [listMin, listMax]
    constructor
    · simp
    · intro mn mx h
      injection h with h
      injection h with h1 h2
      subst h1
      subst h2
      obtain ⟨hmemn, hlexn, hlen⟩ := foldl_min_spec x xs
      obtain ⟨hmemx, hlexx, hlex⟩ := foldl_max_spec x xs
      refine ⟨?_, ?_, ?_⟩
      · rcases hmemn with h | h
        · rw [h]
          exact List.mem_cons_self x xs
        · exact List.mem_cons_of_mem x h
      · rcases hmemx with h | h
        · rw [h]
          exact List.mem_cons_self x xs
        · exact List.mem_cons_of_mem x h
      · intro g hg
        rcases List.mem_cons.1 hg with rfl | hg'
        · exact ⟨hlexn, hlexx⟩
        · exact ⟨hlen g hg', hlex g hg'⟩

/-- Claim C8 witness: on a roster with grades `[0]` and `[50, 100]` the
global figures 0 and 100 are raw grades bounding every raw grade. -/
theorem report_min_max_over_raw_grades_witness :
    0 ∈ allGrades [⟨nA, [0]⟩, ⟨nB, [50, 100]⟩] ∧
    100 ∈ allGrades [⟨nA, [0]⟩, ⟨nB, [50, 100]⟩] ∧
    ∀ g ∈ allGrades [⟨nA, [0]⟩, ⟨nB, [50, 100]⟩], 0 ≤ g ∧ g ≤ 100 :=
  (report_min_max_over_raw_grades [⟨nA, [0]⟩, ⟨nB, [50, 100]⟩]).2 0 100
    (by decide)

/-! ### The top-performer scan -/

theorem foldl_pyMaxStep_spec (xs : List (List Char × ℚ)) (cur : List Char × ℚ) :
    (xs.foldl pyMaxStep cur = cur ∧ ∀ y ∈ xs, y.2 ≤ cur.2) ∨
    (∃ l1 l2, xs = l1 ++ (xs.foldl pyMaxStep cur) :: l2 ∧
      cur.2 < (xs.foldl pyMaxStep cur).2 ∧
      (∀ y ∈ l1, y.2 < (xs.foldl pyMaxStep cur).2) ∧
      (∀ y ∈ l2, y.2 ≤ (xs.foldl pyMaxStep cur).2)) := by
  induction xs generalizing cur with
  | nil => exact Or.inl ⟨rfl, by simp⟩
  | cons z rest ih =>
    rw [List.foldl_cons]
    by_cases hz : cur.2 < z.2
    · rw [show pyMaxStep cur z = z from if_pos hz]
      rcases ih z with ⟨heq, hle⟩ | ⟨l1, l2, hsplit, hlt, hl1, hl2⟩
      · right
        rw [heq]
        exact ⟨[], rest, rfl, hz, by simp, hle⟩
      · right
        refine ⟨z :: l1, l2, by rw [List.cons_append, ← hsplit], hz.trans hlt, ?_, hl2⟩
        intro y hy
        rcases List.mem_cons.1 hy with rfl | hy'
        · exact hlt
        · exact hl1 y hy'
    · rw [show pyMaxStep cur z = cur from if_neg hz]
      rcases ih cur with ⟨heq, hle⟩ | ⟨l1, l2, hsplit, hlt, hl1, hl2⟩
      · left
        refine ⟨heq, ?_⟩
        intro y hy
        rcases List.mem_cons.1 hy with rfl | hy'
        · exact le_of_not_lt hz
        · exact hle y hy'
      · right
        refine ⟨z :: l1, l2, by rw [List.cons_append, ← hsplit], hlt, ?_, hl2⟩
        intro y hy
        rcases List.mem_cons.1 hy with rfl | hy'
        · exact lt_of_le_of_lt (le_of_not_lt hz) hlt
        · exact hl1 y hy'

theorem valid_students_nil_iff (students : List Student) :
    valid_students students = [] ↔ ∀ s ∈ students, s.grades = [] := by
  simp [valid_students, List.filter_eq_nil_iff, List.isEmpty_iff]

/-- Claim C9: restricted to the students with at least one grade
(`valid_students`), the top-performer scan returns the `(name, average)` pair
whose average is maximal, ties broken by first-encountered order: the result
splits `valid_students` as `l1 ++ r :: l2` with every earlier entry strictly
below and every later entry at most the winning average.  When no student has
any grades it returns the distinct `none` sentinel instead. -/
theorem top_performer_first_max (students : List Student) :
    (find_top_performer students = none ↔ ∀ s ∈ students, s.grades = []) ∧
    ∀ r, find_top_performer students = some r →
      ∃ l1 l2, valid_students students = l1 ++ r :: l2 ∧
        (∀ y ∈ l1, y.2 < r.2) ∧ (∀ y ∈ l2, y.2 ≤ r.2) := by
  constructor
  · rw [← valid_students_nil_iff]
    unfold find_top_performer pyMaxByVal
    cases valid_students students with
    | nil => simp
    | cons v vs => simp
  · intro r hr
    unfold find_top_performer pyMaxByVal at hr
    cases hval : valid_students students with
    | nil =>
      rw [hval] at hr
      exact absurd hr (by simp)
    | cons v vs =>
      rw [hval] at hr
      injection hr with hr
      rcases foldl_pyMaxStep_spec vs v with ⟨heq, hle⟩ | ⟨l1, l2, hsplit, hlt, hl1, hl2⟩
      · refine ⟨[], vs, ?_, by simp, ?_⟩
        · rw [List.nil_append, ← hr, heq]
        · intro y hy
          rw [← hr, heq]
          exact hle y hy
      · rw [hr] at hsplit hlt hl1 hl2
        refine ⟨v :: l1, l2, by rw [List.cons_append, ← hsplit], ?_, hl2⟩
        intro y hy
        rcases List.mem_cons.1 hy with rfl | hy'
        · exact hlt
        · exact hl1 y hy'

/-- Claim C9 witness: over `{A: [90], B: [95], C: []}` the scan returns B with
average 95; A (earlier, strictly lower) and the gradeless C are passed over. -/
theorem top_performer_first_max_witness :
    ∃ l1 l2,
      valid_students [⟨nA, [90]⟩, ⟨nB, [95]⟩, ⟨nC, []⟩] =
        l1 ++ (nB, (95 : ℚ)) :: l2 ∧
      (∀ y ∈ l1, y.2 < (95 : ℚ)) ∧ (∀ y ∈ l2, y.2 ≤ (95 : ℚ)) :=
  (top_performer_first_max [⟨nA, [90]⟩, ⟨nB, [95]⟩, ⟨nC, []⟩]).2 (nB, 95)
    (by
      simp +decide [find_top_performer, valid_students, pyMaxByVal, pyMaxStep,
        average, nA, nB, nC])
